import Mathlib

/-!
Verification of the file-locating core of `config-rs`
(`src/file/source/file.rs`): the upward directory search of
`FileSourceFile::find_file`, the resolution wrapper
`FileSourceFile::resolve`, and the lexical relative-path computation
`path_relative_from`.

The embedding targets Unix path semantics, which is what the Rust code
exercises in this repository: a `std::path::Component` is either the root
directory, the current-directory marker, the parent-directory marker, or a
normal named segment (the Windows-only `Prefix` component is omitted).
Paths are lists of components; an absolute path is one whose first
component is the root directory, matching `Path::is_absolute` on Unix.
-/

set_option autoImplicit false

namespace Config

/-- A Unix `std::path::Component`: root directory, the marker for the
current directory, the marker for the parent directory, or a normal
named segment. -/
inductive Comp where
  | rootDir
  | curDir
  | parentDir
  | normal (s : String)
deriving DecidableEq, Repr

/-- `Path::is_absolute` on Unix: the path has a root, i.e. its component
stream starts with the root-directory component. -/
def isAbsolute : List Comp → Bool
  | Comp.rootDir :: _ => true
  | _ => false

/-- The component-diff loop of `path_relative_from`.  `pa` is the
remaining components of `path` (the target), `pb` the remaining components
of `base`, and `acc` the `comps` vector accumulated so far.  Each arm
mirrors one arm of the Rust `match (ita.next(), itb.next())`, in order:

* `(None, None)` breaks and collects `comps`;
* `(Some(a), None)` pushes `a` and the rest of `ita`, then breaks;
* `(None, _)` pushes one `ParentDir` (whatever the base component is);
* `(Some(a), Some(b))` skips equal components while `comps` is empty,
  pushes `a` when `b` is the current-directory marker, fails when `b` is
  the parent-directory marker, and otherwise pushes one `ParentDir` for
  `b` and each component left in `itb` followed by `a` and the rest of
  `ita`. -/
def relComps : List Comp → List Comp → List Comp → Option (List Comp)
  | pa, [], acc =>
    match pa with
    | [] => some acc
    | a :: as => some (acc ++ a :: as)
  | pa, b :: bs, acc =>
    match pa with
    | [] => relComps [] bs (acc ++ [Comp.parentDir])
    | a :: as =>
      if acc = [] ∧ a = b then relComps as bs acc
      else if b = Comp.curDir then relComps as bs (acc ++ [a])
      else if b = Comp.parentDir then none
      else some (acc ++ Comp.parentDir :: (bs.map fun _ => Comp.parentDir) ++ a :: as)

/-- `path_relative_from(path, base)`: when the two paths disagree on
absoluteness, return `path` itself if it is absolute and fail otherwise;
when they agree, run the component-diff loop starting from an empty
`comps` vector. -/
def path_relative_from (path base : List Comp) : Option (List Comp) :=
  if isAbsolute path ≠ isAbsolute base then
    if isAbsolute path then some path else none
  else
    relComps path base []

/-- Errors surfaced by the locator.  `notFound` carries the formatted
message of the `io::Error` built at upward exhaustion and `ioError`
stands for any propagated I/O failure (open/read).  `configError` is the
explicit rejection of an empty candidate-extension list that the spec
mandates; the source never constructs it, and it exists so that the spec
sentence can be stated against the code. -/
inductive Err where
  | notFound (msg : String)
  | configError (msg : String)
  | ioError
deriving DecidableEq, Repr

/-- The filesystem as the code observes it: `isFile` answers
`Path::is_file` existence probes and `readFile` models
`File::open` followed by `read_to_string` (`none` meaning the open or
read fails).  An absolute file path is given by its component names in
root-first order. -/
structure Fs where
  isFile : List String → Bool
  readFile : List String → Option String

/-- Modelled from the spec: the format registry (`FileFormat`, which
lives outside the provided sources) yields "the ordered list of
acceptable filename extensions for that format".  Only that list is
relevant here, so a format is embedded as its extension list. -/
structure FileFormat where
  extensions : List String

/-- `FileSourceFile`: the base name of the configuration file (a stem
with no extension, per the spec's input contract) and the optional
containing directory, embedded as its relative component names. -/
structure FileSourceFile where
  name : String
  path : Option (List String)

/-- Directory components contributed by the optional `path` field when it
is pushed onto the `basename` buffer. -/
def basenameDirs (self : FileSourceFile) : List String :=
  match self.path with
  | none => []
  | some p => p

/-- Rendering of a pushed-component `PathBuf` by `to_string_lossy` on
Unix: segments joined by a single separator. -/
def joinPath : List String → String
  | [] => ""
  | [s] => s
  | s :: rest => s ++ "/" ++ joinPath rest

/-- The message of the `io::Error` returned at upward exhaustion:
`configuration file "<basename>" not found`, where `<basename>` is the
optional directory joined with the extensionless name. -/
def notFoundMsg (self : FileSourceFile) : String :=
  "configuration file \"" ++ joinPath (basenameDirs self ++ [self.name]) ++ "\" not found"

/-- The inner `for ext in &extensions` loop: successively call
`filename.set_extension(ext)` — which swaps the extension of the final
component, leaving `fdirs` and the stem untouched — and return the first
candidate whose `is_file` probe succeeds. -/
def tryExtensions (fs : Fs) (fdirs : List String) (stem : String) : List String → Option (List String)
  | [] => none
  | ext :: rest =>
    if fs.isFile (fdirs ++ [stem ++ "." ++ ext]) then some (fdirs ++ [stem ++ "." ++ ext])
    else tryExtensions fs fdirs stem rest

/-- The outer `loop` of `find_file`.  Each iteration first tests every
candidate extension and returns on a hit, then performs `dir.pop()`,
failing with the not-found error once the cursor has reached the root.
Because `filename` is computed once before the loop and never rebuilt
from the popped `dir`, the candidates tested are the same in every
iteration; `dir` is only ever popped, so the cursor is carried here as
its component names deepest-first (`dirRev`), making `pop` the head
drop. -/
def findLoop (fs : Fs) (fdirs : List String) (stem msg : String) (exts : List String) : List String → Except Err (List String)
  | [] =>
    match tryExtensions fs fdirs stem exts with
    | some f => Except.ok f
    | none => Except.error (Err.notFound msg)
  | _ :: rest =>
    match tryExtensions fs fdirs stem exts with
    | some f => Except.ok f
    | none => findLoop fs fdirs stem msg exts rest

/-- `FileSourceFile::find_file`.  The outer `Option` models the
`format_hint.unwrap()`: `none` is the panic on a missing hint, and
otherwise the search runs with the hint's extension list.  `cwd` is the
current working directory in root-first component names; the initial
`filename` is `cwd` joined with the optional directory and the name. -/
def find_file (self : FileSourceFile) (fs : Fs) (cwd : List String) (format_hint : Option FileFormat) : Option (Except Err (List String)) :=
  match format_hint with
  | none => none
  | some fmt =>
    some (findLoop fs (cwd ++ basenameDirs self) self.name (notFoundMsg self) fmt.extensions cwd.reverse)

/-- Components of an absolute path given by its root-first names, as
`Path::components` yields them on Unix: the root directory followed by
the normal segments. -/
def pathComps (l : List String) : List Comp :=
  Comp.rootDir :: l.map Comp.normal

/-- Display of one component, as `as_os_str` renders it on Unix. -/
def compStr : Comp → String
  | Comp.rootDir => "/"
  | Comp.curDir => "."
  | Comp.parentDir => ".."
  | Comp.normal s => s

/-- Display of a collected component list (`to_string_lossy` of the
`PathBuf` built by pushing each component in turn). -/
def renderComps : List Comp → String
  | [] => ""
  | Comp.rootDir :: rest => "/" ++ renderComps rest
  | [c] => compStr c
  | c :: rest => compStr c ++ "/" ++ renderComps rest

/-- The URI computation in `resolve`: the relative path from the working
directory when `path_relative_from` can compute one, otherwise the found
absolute path unchanged. -/
def uriOf (filename cwd : List String) : List Comp :=
  match path_relative_from (pathComps filename) (pathComps cwd) with
  | some value => value
  | none => pathComps filename

/-- `FileSourceFile::resolve`: locate the file (propagating the panic on
a missing format hint and any locator error), compute the display URI
with the relativization fallback, then open and read the file,
surfacing a read failure as an I/O error and otherwise returning
`Ok((Some(uri), text))`. -/
def resolve (self : FileSourceFile) (fs : Fs) (cwd : List String) (format_hint : Option FileFormat) : Option (Except Err (Option String × String)) :=
  match find_file self fs cwd format_hint with
  | none => none
  | some (Except.error e) => some (Except.error e)
  | some (Except.ok filename) =>
    match fs.readFile filename with
    | none => some (Except.error Err.ioError)
    | some text => some (Except.ok (some (renderComps (uriOf filename cwd)), text))

/-- Recognizer for the explicit configuration-error rejection that the
spec mandates for an empty candidate-extension list. -/
def isConfigRejection : Option (Except Err (List String)) → Bool
  | some (Except.error (Err.configError _)) => true
  | _ => false

/-- Fixture: the only file on disk is `settings.toml` in an ancestor
(`/home/user`) of the working directory `/home/user/project`. -/
def fsAncestorOnly : Fs where
  isFile := fun p => p == ["home", "user", "settings.toml"]
  readFile := fun _ => none

/-- Fixture: every existence probe succeeds. -/
def fsEverything : Fs where
  isFile := fun _ => true
  readFile := fun _ => some ""

/-- Fixture: no file exists anywhere. -/
def fsNothing : Fs where
  isFile := fun _ => false
  readFile := fun _ => none

/-- Fixture: `settings.a` and `settings.b` both exist in the parent
directory `/h` of the working directory `/h/proj`; nothing else does. -/
def fsParentBoth : Fs where
  isFile := fun p => p == ["h", "settings.a"] || p == ["h", "settings.b"]
  readFile := fun _ => none

/-- Fixture: `settings.a` and `settings.b` both exist in the working
directory, which is the filesystem root. -/
def fsCwdBoth : Fs where
  isFile := fun p => p == ["settings.a"] || p == ["settings.b"]
  readFile := fun _ => none

/-- Fixture: one file `/d/s.a` with contents `text`, and reading it
succeeds. -/
def fsReadDemo : Fs where
  isFile := fun p => p == ["d", "s.a"]
  readFile := fun p => if p == ["d", "s.a"] then some "text" else none

/-- Walking a shared component prefix with an empty accumulator leaves
the diff loop at the two suffixes. -/
theorem relComps_append_same (p t b : List Comp) :
    relComps (p ++ t) (p ++ b) [] = relComps t b [] := by
  induction p with
  | nil => rfl
  | cons x xs ih => simpa [relComps] using ih

/-- When the target side is exhausted, every remaining base component —
whatever it is — contributes one parent-directory step. -/
theorem relComps_nil_left (bs : List Comp) : ∀ acc : List Comp,
    relComps [] bs acc = some (acc ++ List.replicate bs.length Comp.parentDir) := by
  induction bs with
  | nil => intro acc; simp [relComps]
  | cons b bs ih =>
    intro acc
    simp [relComps, ih, List.replicate_succ]

/-- The diff loop on two identical component lists collects nothing. -/
theorem relComps_self (p : List Comp) : relComps p p [] = some [] := by
  induction p with
  | nil => rfl
  | cons x xs ih => simpa [relComps] using ih

/-- The joined rendering of components ending in `s` is some string
followed by `s`. -/
theorem joinPath_append_last (l : List String) (s : String) :
    ∃ t, joinPath (l ++ [s]) = t ++ s := by
  induction l with
  | nil => exact ⟨"", by simp [joinPath]⟩
  | cons x xs ih =>
    obtain ⟨t, ht⟩ := ih
    refine ⟨x ++ "/" ++ t, ?_⟩
    have hx : joinPath (x :: (xs ++ [s])) = x ++ "/" ++ joinPath (xs ++ [s]) := by
      cases xs <;> simp [joinPath]
    rw [List.cons_append, hx, ht]
    simp [String.append_assoc]

/-- If no candidate extension matches, the extension loop finds
nothing. -/
theorem tryExtensions_none (fs : Fs) (fdirs : List String) (stem : String)
    (exts : List String)
    (h : ∀ e ∈ exts, fs.isFile (fdirs ++ [stem ++ "." ++ e]) = false) :
    tryExtensions fs fdirs stem exts = none := by
  induction exts with
  | nil => rfl
  | cons e rest ih =>
    have he := h e (List.mem_cons_self e rest)
    simp [tryExtensions, he]
    exact ih fun e' h' => h e' (List.mem_cons_of_mem _ h')

/-- The extension loop returns the candidate of the first extension that
matches, skipping the earlier non-matching ones. -/
theorem tryExtensions_first (fs : Fs) (fdirs : List String) (stem : String)
    (l1 : List String) (e1 : String) (l2 : List String)
    (h1 : ∀ e ∈ l1, fs.isFile (fdirs ++ [stem ++ "." ++ e]) = false)
    (h2 : fs.isFile (fdirs ++ [stem ++ "." ++ e1]) = true) :
    tryExtensions fs fdirs stem (l1 ++ e1 :: l2) = some (fdirs ++ [stem ++ "." ++ e1]) := by
  induction l1 with
  | nil => simp [tryExtensions, h2]
  | cons x xs ih =>
    have hx := h1 x (List.mem_cons_self x xs)
    simp [tryExtensions, hx]
    exact ih fun e' h' => h1 e' (List.mem_cons_of_mem _ h')

/-- When the (fixed) candidate set never matches, the walk ends in the
not-found error no matter how deep the starting directory is. -/
theorem findLoop_none (fs : Fs) (fdirs : List String) (stem msg : String)
    (exts : List String) (h : tryExtensions fs fdirs stem exts = none)
    (dirRev : List String) :
    findLoop fs fdirs stem msg exts dirRev = Except.error (Err.notFound msg) := by
  induction dirRev with
  | nil => simp [findLoop, h]
  | cons x rest ih => simpa [findLoop, h] using ih

/-- When the candidate set matches, the walk returns that candidate at
once, from any starting directory. -/
theorem findLoop_some (fs : Fs) (fdirs : List String) (stem msg : String)
    (exts : List String) (ff : List String)
    (h : tryExtensions fs fdirs stem exts = some ff)
    (dirRev : List String) :
    findLoop fs fdirs stem msg exts dirRev = Except.ok ff := by
  cases dirRev <;> simp [findLoop, h]

/-- Claim C1: the upward search does not ascend.  With the only
`settings.toml` on disk lying in `/home/user`, an ancestor of the working
directory `/home/user/project`, and no candidate in the working directory
itself, `find_file` fails with the not-found error instead of returning
the ancestor's file: `filename` is built from the starting directory once
and never rebuilt after `dir.pop()`, so the walk keeps probing the same
path, contrary to the git-style upward search the code's own comments
describe. -/
theorem find_file_walk_never_ascends :
    fsAncestorOnly.isFile ["home", "user", "settings.toml"] = true
    ∧ fsAncestorOnly.isFile ["home", "user", "project", "settings.toml"] = false
    ∧ find_file ⟨"settings", none⟩ fsAncestorOnly ["home", "user", "project"] (some ⟨["toml"]⟩)
        = some (Except.error (Err.notFound "configuration file \"settings\" not found")) :=
  ⟨rfl, rfl, rfl⟩

/-- Claim C2, counterexample: called with an empty candidate-extension
list — on a filesystem where every probe would succeed — `find_file`
does not reject the input with a configuration error; it silently walks
the tree testing nothing and reports the file as not found. -/
theorem find_file_empty_exts_not_rejected :
    find_file ⟨"settings", none⟩ fsEverything ["a"] (some ⟨[]⟩)
        = some (Except.error (Err.notFound "configuration file \"settings\" not found"))
    ∧ isConfigRejection (find_file ⟨"settings", none⟩ fsEverything ["a"] (some ⟨[]⟩)) = false :=
  ⟨rfl, rfl⟩

/-- Claim C2, amended: for every call with an empty candidate-extension
list, the walk tests no file at all and fails with the same not-found
error as genuine absence, whatever the filesystem contains. -/
theorem find_file_empty_extensions (self : FileSourceFile) (fs : Fs) (cwd : List String)
    (f : FileFormat) (h : f.extensions = []) :
    find_file self fs cwd (some f)
      = some (Except.error (Err.notFound (notFoundMsg self))) := by
  simp only [find_file, h]
  exact congrArg some
    (findLoop_none fs (cwd ++ basenameDirs self) self.name (notFoundMsg self) [] rfl cwd.reverse)

/-- Witness for the amended claim C2 at a concrete input. -/
theorem find_file_empty_extensions_eval :
    find_file ⟨"n", none⟩ fsEverything [] (some ⟨[]⟩)
      = some (Except.error (Err.notFound (notFoundMsg ⟨"n", none⟩))) :=
  find_file_empty_extensions ⟨"n", none⟩ fsEverything [] ⟨[]⟩ rfl

/-- Claim C3: when no candidate file exists in any directory from the
working directory up to and including the root, `find_file` fails with
the not-found error, and the error message contains the requested base
name with no resolved extension. -/
theorem find_file_upward_exhaustion_notFound (self : FileSourceFile) (fs : Fs)
    (cwd : List String) (f : FileFormat)
    (h : ∀ ext ∈ f.extensions, ∀ d ∈ cwd.inits,
      fs.isFile (d ++ basenameDirs self ++ [self.name ++ "." ++ ext]) = false) :
    find_file self fs cwd (some f)
        = some (Except.error (Err.notFound (notFoundMsg self)))
    ∧ ∃ s1 s2, notFoundMsg self = s1 ++ self.name ++ s2 := by
  constructor
  · have hnone : tryExtensions fs (cwd ++ basenameDirs self) self.name f.extensions = none := by
      apply tryExtensions_none
      intro e he
      exact h e he cwd ((List.mem_inits cwd cwd).2 List.prefix_rfl)
    simp only [find_file]
    exact congrArg some
      (findLoop_none fs (cwd ++ basenameDirs self) self.name (notFoundMsg self)
        f.extensions hnone cwd.reverse)
  · obtain ⟨t, ht⟩ := joinPath_append_last (basenameDirs self) self.name
    refine ⟨"configuration file \"" ++ t, "\" not found", ?_⟩
    show "configuration file \"" ++ joinPath (basenameDirs self ++ [self.name]) ++ "\" not found" = _
    rw [ht]
    simp [String.append_assoc]

/-- Witness for claim C3 at a concrete input with no file anywhere. -/
theorem find_file_upward_exhaustion_notFound_eval :
    find_file ⟨"settings", none⟩ fsNothing ["a"] (some ⟨["toml"]⟩)
        = some (Except.error (Err.notFound (notFoundMsg ⟨"settings", none⟩)))
    ∧ ∃ s1 s2, notFoundMsg ⟨"settings", none⟩ = s1 ++ "settings" ++ s2 :=
  find_file_upward_exhaustion_notFound ⟨"settings", none⟩ fsNothing ["a"] ⟨["toml"]⟩
    (by decide)

/-- Claim C4, counterexample: `settings.a` and `settings.b` both exist in
`/h`, a directory in which more than one candidate extension matches, and
`a` precedes `b` in the candidate order — yet a lookup from `/h/proj`
does not resolve to the `a` file there: it fails with not-found, because
the walk never actually probes ancestor directories. -/
theorem find_file_ancestor_priority_fails :
    fsParentBoth.isFile ["h", "settings.a"] = true
    ∧ fsParentBoth.isFile ["h", "settings.b"] = true
    ∧ find_file ⟨"settings", none⟩ fsParentBoth ["h", "proj"] (some ⟨["a", "b"]⟩)
        = some (Except.error (Err.notFound "configuration file \"settings\" not found")) :=
  ⟨rfl, rfl, rfl⟩

/-- Claim C4, amended: extension priority holds in the one directory the
walk actually probes, the working directory: if the extensions before
`e1` in the candidate order have no matching file there and `e1` does,
`find_file` returns the working directory's `e1` file — in particular,
when files for two extensions both exist there, the earlier extension in
the supplied order wins. -/
theorem find_file_extension_priority (self : FileSourceFile) (fs : Fs) (cwd : List String)
    (f : FileFormat) (l1 : List String) (e1 : String) (l2 : List String)
    (hext : f.extensions = l1 ++ e1 :: l2)
    (h1 : ∀ e ∈ l1, fs.isFile (cwd ++ basenameDirs self ++ [self.name ++ "." ++ e]) = false)
    (h2 : fs.isFile (cwd ++ basenameDirs self ++ [self.name ++ "." ++ e1]) = true) :
    find_file self fs cwd (some f)
      = some (Except.ok (cwd ++ basenameDirs self ++ [self.name ++ "." ++ e1])) := by
  simp only [find_file, hext]
  exact congrArg some
    (findLoop_some fs (cwd ++ basenameDirs self) self.name (notFoundMsg self)
      (l1 ++ e1 :: l2) (cwd ++ basenameDirs self ++ [self.name ++ "." ++ e1])
      (tryExtensions_first fs (cwd ++ basenameDirs self) self.name l1 e1 l2 h1 h2)
      cwd.reverse)

/-- Witness for the amended claim C4: with both `settings.a` and
`settings.b` in the working directory and candidate order `a` then `b`,
the `a` file is returned. -/
theorem find_file_extension_priority_eval :
    find_file ⟨"settings", none⟩ fsCwdBoth [] (some ⟨["a", "b"]⟩)
      = some (Except.ok ["settings.a"]) :=
  find_file_extension_priority ⟨"settings", none⟩ fsCwdBoth [] ⟨["a", "b"]⟩ [] "a" ["b"]
    rfl (by decide) (by decide)

/-- Claim C5: for same-kind paths decomposed as a longest shared
component prefix `p` followed by divergent suffixes, when the remaining
base components contain no same-directory and no parent-directory
markers, `path_relative_from` yields exactly one parent step per
remaining base component followed by the remaining target components in
order; when the base is exhausted at the shared prefix this is just the
target's remaining suffix. -/
theorem relativize_component_diff (p t' b' : List Comp)
    (hkind : isAbsolute (p ++ t') = isAbsolute (p ++ b'))
    (hdiv : t'.head? = b'.head? → t' = [] ∧ b' = [])
    (hcur : Comp.curDir ∉ b') (hpar : Comp.parentDir ∉ b') :
    path_relative_from (p ++ t') (p ++ b')
      = some (List.replicate b'.length Comp.parentDir ++ t') := by
  have hbranch : path_relative_from (p ++ t') (p ++ b') = relComps (p ++ t') (p ++ b') [] := by
    simp [path_relative_from, hkind]
  rw [hbranch, relComps_append_same]
  match t', b' with
  | [], bs =>
    rw [relComps_nil_left]
    simp
  | a :: as, [] => simp [relComps]
  | a :: as, b :: bs =>
    have hab : a ≠ b := by
      intro h
      subst h
      exact absurd ((hdiv rfl).1) (by simp)
    have hbc : b ≠ Comp.curDir := fun h => hcur (h ▸ List.mem_cons_self b bs)
    have hbp : b ≠ Comp.parentDir := fun h => hpar (h ▸ List.mem_cons_self b bs)
    have hmap : (bs.map fun _ => Comp.parentDir) = List.replicate bs.length Comp.parentDir := by
      simp [List.map_const']
    simp [relComps, hab, hbc, hbp, hmap, List.replicate_succ]

/-- Witness for claim C5: the spec's divergent example, relativizing
`/a/b/c` against `/a/x/y` to get `../../b/c`. -/
theorem relativize_component_diff_spec_example :
    path_relative_from
        ([Comp.rootDir, Comp.normal "a"] ++ [Comp.normal "b", Comp.normal "c"])
        ([Comp.rootDir, Comp.normal "a"] ++ [Comp.normal "x", Comp.normal "y"])
      = some (List.replicate 2 Comp.parentDir ++ [Comp.normal "b", Comp.normal "c"]) :=
  relativize_component_diff [Comp.rootDir, Comp.normal "a"]
    [Comp.normal "b", Comp.normal "c"] [Comp.normal "x", Comp.normal "y"]
    rfl (by decide) (by decide) (by decide)

/-- Claim C6, counterexample: relativizing `/a` against `/a/..` reaches a
parent-directory marker in the base after the target is exhausted, and
the result is `Some ..` — one parent step — not "not computable": the
exhausted-target arm pushes a parent step for every base component
without inspecting it. -/
theorem relativize_base_parentDir_target_exhausted :
    path_relative_from [Comp.rootDir, Comp.normal "a"]
        [Comp.rootDir, Comp.normal "a", Comp.parentDir] = some [Comp.parentDir]
    ∧ path_relative_from [Comp.rootDir, Comp.normal "a"]
        [Comp.rootDir, Comp.normal "a", Comp.parentDir] ≠ none :=
  ⟨by decide, by decide⟩

/-- Claim C6, amended: when the first divergent base component is a
parent-directory marker and the target still has a component remaining
at that point, `path_relative_from` returns "not computable"; with the
target already exhausted the marker instead contributes a parent step as
the counterexample shows. -/
theorem relativize_base_parentDir_none (p t' b' : List Comp) (a : Comp)
    (hkind : isAbsolute (p ++ a :: t') = isAbsolute (p ++ Comp.parentDir :: b'))
    (ha : a ≠ Comp.parentDir) :
    path_relative_from (p ++ a :: t') (p ++ Comp.parentDir :: b') = none := by
  have hbranch : path_relative_from (p ++ a :: t') (p ++ Comp.parentDir :: b')
      = relComps (p ++ a :: t') (p ++ Comp.parentDir :: b') [] := by
    simp [path_relative_from, hkind]
  rw [hbranch, relComps_append_same]
  simp [relComps, ha]

/-- Witness for the amended claim C6: relativizing `/x` against `/..`
is not computable. -/
theorem relativize_base_parentDir_none_eval :
    path_relative_from ([Comp.rootDir] ++ Comp.normal "x" :: [])
        ([Comp.rootDir] ++ Comp.parentDir :: []) = none :=
  relativize_base_parentDir_none [Comp.rootDir] [] [] (Comp.normal "x") rfl (by decide)

/-- Claim C7: on mixed-kind inputs, an absolute target with a relative
base comes back unchanged, and a relative target with an absolute base is
not computable. -/
theorem relativize_mixed_kinds (t b : List Comp) :
    (isAbsolute t = true → isAbsolute b = false → path_relative_from t b = some t)
    ∧ (isAbsolute t = false → isAbsolute b = true → path_relative_from t b = none) := by
  constructor <;> intro h1 h2 <;> simp [path_relative_from, h1, h2]

/-- Witness for claim C7: `/a` against relative `r` is returned
unchanged, while relative `r` against `/` is not computable. -/
theorem relativize_mixed_kinds_eval :
    path_relative_from [Comp.rootDir, Comp.normal "a"] [Comp.normal "r"]
        = some [Comp.rootDir, Comp.normal "a"]
    ∧ path_relative_from [Comp.normal "r"] [Comp.rootDir] = none :=
  ⟨(relativize_mixed_kinds [Comp.rootDir, Comp.normal "a"] [Comp.normal "r"]).1 rfl rfl,
   (relativize_mixed_kinds [Comp.normal "r"] [Comp.rootDir]).2 rfl rfl⟩

/-- Claim C8: relativizing any path against itself yields the empty
relative path. -/
theorem relativize_identity (p : List Comp) : path_relative_from p p = some [] := by
  simp [path_relative_from, relComps_self]

/-- Claim C9: after a successful lookup whose file can be read, `resolve`
succeeds with the display path present — the URI is the relative path
when `path_relative_from` computes one and falls back to the found
absolute path when it does not, so relativization never fails the
operation and the display-path component is always `Some`. -/
theorem resolve_display_path_some (self : FileSourceFile) (fs : Fs) (cwd : List String)
    (f : FileFormat) (fn : List String) (text : String)
    (hf : find_file self fs cwd (some f) = some (Except.ok fn))
    (hr : fs.readFile fn = some text) :
    resolve self fs cwd (some f)
        = some (Except.ok (some (renderComps (uriOf fn cwd)), text))
    ∧ (path_relative_from (pathComps fn) (pathComps cwd) = none → uriOf fn cwd = pathComps fn)
    ∧ ∃ s, resolve self fs cwd (some f) = some (Except.ok (some s, text)) := by
  have h1 : resolve self fs cwd (some f)
      = some (Except.ok (some (renderComps (uriOf fn cwd)), text)) := by
    simp [resolve, hf, hr]
  exact ⟨h1, fun hn => by simp [uriOf, hn], ⟨renderComps (uriOf fn cwd), h1⟩⟩

/-- Witness for claim C9 at a concrete input: locating `s` from `/d`
finds `/d/s.a`, reads `text`, and returns a present display path. -/
theorem resolve_display_path_some_eval :
    resolve ⟨"s", none⟩ fsReadDemo ["d"] (some ⟨["a"]⟩)
        = some (Except.ok (some (renderComps (uriOf ["d", "s.a"] ["d"])), "text"))
    ∧ (path_relative_from (pathComps ["d", "s.a"]) (pathComps ["d"]) = none →
        uriOf ["d", "s.a"] ["d"] = pathComps ["d", "s.a"])
    ∧ ∃ s, resolve ⟨"s", none⟩ fsReadDemo ["d"] (some ⟨["a"]⟩)
        = some (Except.ok (some s, "text")) :=
  resolve_display_path_some ⟨"s", none⟩ fsReadDemo ["d"] ⟨["a"]⟩ ["d", "s.a"] "text" rfl rfl

/-- Claim C10: the format hint is unconditionally unwrapped before the
extension list is computed, so every call with a missing hint panics
(modelled as the outer `none`) in both `find_file` and `resolve`, and
every call with a present hint avoids the panic branch. -/
theorem find_file_format_hint_panic (self : FileSourceFile) (fs : Fs) (cwd : List String) :
    find_file self fs cwd none = none
    ∧ resolve self fs cwd none = none
    ∧ ∀ f : FileFormat, (find_file self fs cwd (some f)).isSome = true
        ∧ (resolve self fs cwd (some f)).isSome = true := by
  refine ⟨rfl, rfl, fun f => ⟨rfl, ?_⟩⟩
  rcases hl : findLoop fs (cwd ++ basenameDirs self) self.name (notFoundMsg self)
      f.extensions cwd.reverse with e | v
  · simp [resolve, find_file, hl]
  · rcases hr : fs.readFile v with _ | text <;> simp [resolve, find_file, hl, hr]

end Config
